import Mathlib

/-!
Allocation engine: a shallow embedding of `allocationEngine.js`.

The core pipeline of the repository (`validateInput`, `normalize`, `allocate`,
`buildJustification`, `computeSummary`) is translated function by function.

Modelling conventions.

* A JavaScript number is a `JsNum`: `NaN`, `-Infinity`, `+Infinity`, or a finite value.
  Finite values are exact rationals, so IEEE-754 rounding error and the sign of zero are
  not represented (a division by zero treats the divisor as `+0`).
* Reading a property that does not exist yields `undefined`, which every numeric
  operator of the source coerces to `NaN`; such reads are modelled as `JsNum.nan`.
* An object is an association list in insertion order, so `Object.keys` is the list of
  first components.
* A thrown `Error` is `Except.error` carrying the message.
-/

namespace AllocationEngine

/-! ## JavaScript numbers -/

/-- A JavaScript number value. -/
inductive JsNum where
  | nan : JsNum
  | ninf : JsNum
  | num (q : ℚ) : JsNum
  | pinf : JsNum
deriving DecidableEq

namespace JsNum

/-- Whether the value is a finite number (`Number.isFinite`). -/
def isFinite : JsNum → Bool
  | num _ => true
  | _ => false

/-- The rational carried by a finite value (0 for the three special values). -/
def toQ : JsNum → ℚ
  | num q => q
  | _ => 0

/-- Unary minus. -/
def neg : JsNum → JsNum
  | nan => nan
  | ninf => pinf
  | num q => num (-q)
  | pinf => ninf

/-- The operator `a + b` on numbers. -/
def add : JsNum → JsNum → JsNum
  | num a, num b => num (a + b)
  | nan, _ => nan
  | _, nan => nan
  | pinf, ninf => nan
  | ninf, pinf => nan
  | pinf, _ => pinf
  | _, pinf => pinf
  | ninf, _ => ninf
  | _, ninf => ninf

/-- The operator `a - b` on numbers. -/
def sub (a b : JsNum) : JsNum := add a (neg b)

/-- Sign of a value that is not NaN: -1, 0 or 1 (0 for NaN). -/
def sign : JsNum → Int
  | nan => 0
  | ninf => -1
  | num q => if 0 < q then 1 else if q < 0 then -1 else 0
  | pinf => 1

/-- The operator `a * b` on numbers. -/
def mul : JsNum → JsNum → JsNum
  | num a, num b => num (a * b)
  | nan, _ => nan
  | _, nan => nan
  | a, b =>
    if a.sign * b.sign = 0 then nan
    else if 0 < a.sign * b.sign then pinf else ninf

/-- The operator `a / b` on numbers; a zero divisor is taken as `+0`. -/
def div : JsNum → JsNum → JsNum
  | nan, _ => nan
  | _, nan => nan
  | num a, num b =>
    if b = 0 then (if a = 0 then nan else if 0 < a then pinf else ninf)
    else num (a / b)
  | num _, _ => num 0
  | a, num b => if 0 ≤ b then a else neg a
  | _, _ => nan

/-- The operator `a < b` on numbers (false whenever an operand is NaN). -/
def lt : JsNum → JsNum → Bool
  | nan, _ => false
  | _, nan => false
  | num a, num b => decide (a < b)
  | ninf, ninf => false
  | ninf, _ => true
  | _, ninf => false
  | pinf, _ => false
  | _, pinf => true

/-- The operator `a > b` on numbers. -/
def gt (a b : JsNum) : Bool := lt b a

/-- The operator `a === b` on numbers (NaN differs from everything). -/
def strictEq : JsNum → JsNum → Bool
  | nan, _ => false
  | _, nan => false
  | a, b => decide (a = b)

/-- Truthiness of a number: `0` and `NaN` are falsy. -/
def truthy : JsNum → Bool
  | nan => false
  | num q => decide (q ≠ 0)
  | _ => true

/-- Two-argument `Math.min`. -/
def min2 (a b : JsNum) : JsNum :=
  match a, b with
  | nan, _ => nan
  | _, nan => nan
  | a, b => if lt b a then b else a

/-- Two-argument `Math.max`. -/
def max2 (a b : JsNum) : JsNum :=
  match a, b with
  | nan, _ => nan
  | _, nan => nan
  | a, b => if lt a b then b else a

/-- The rounding of `Math.round` on a rational: nearest integer, ties towards `+∞`. -/
def roundQ (q : ℚ) : ℤ := ⌊q + 1 / 2⌋

/-- The function `Math.round`. -/
def round : JsNum → JsNum
  | num q => num (roundQ q)
  | a => a

end JsNum

/-- The call `Math.min(...arr)`: `+Infinity` for no arguments, NaN if any argument is NaN. -/
def mathMin (arr : List JsNum) : JsNum := arr.foldl JsNum.min2 JsNum.pinf

/-- The call `Math.max(...arr)`: `-Infinity` for no arguments, NaN if any argument is NaN. -/
def mathMax (arr : List JsNum) : JsNum := arr.foldl JsNum.max2 JsNum.ninf

/-- The call `arr.reduce((a, b) => a + b, 0)`. -/
def sumNums (arr : List JsNum) : JsNum := arr.foldl JsNum.add (JsNum.num 0)

/-! ## Data model -/

/-- An agent record: its identifier and its numeric properties. -/
structure Agent where
  id : String
  attrs : List (String × JsNum)
deriving DecidableEq

/-- The property read `a[k]` in numeric position (a missing property reads as NaN). -/
def Agent.get (a : Agent) (k : String) : JsNum := (a.attrs.lookup k).getD JsNum.nan

/-- The `salesAgents` property of the input: absent, present but not an array, or an array. -/
inductive AgentsField where
  | absent : AgentsField
  | notArray : AgentsField
  | array (agents : List Agent) : AgentsField
deriving DecidableEq

/-- The input object; `siteKitty = none` means the key is not in the object. -/
structure Input where
  siteKitty : Option JsNum
  salesAgents : AgentsField
deriving DecidableEq

/-- The configuration object; `none` means the property is not set. -/
structure Config where
  weights : Option (List (String × JsNum))
  minPerAgent : Option JsNum
  maxPerAgent : Option JsNum
deriving DecidableEq

/-- The weights of `DEFAULT_CONFIG`. -/
def defaultWeights : List (String × JsNum) :=
  [("performanceScore", JsNum.num (2 / 5)), ("seniorityMonths", JsNum.num (1 / 5)),
   ("targetAchievedPercent", JsNum.num (3 / 10)), ("activeClients", JsNum.num (1 / 10))]

/-- The value `DEFAULT_CONFIG.minPerAgent`. -/
def defaultMinPerAgent : JsNum := JsNum.num 0

/-- The value `DEFAULT_CONFIG.maxPerAgent`. -/
def defaultMaxPerAgent : JsNum := JsNum.pinf

/-- Truthiness of an optional numeric property (`undefined` is falsy). -/
def optTruthy : Option JsNum → Bool
  | none => false
  | some v => v.truthy

/-- The comparison `a > b` of two optional numeric properties (`undefined` coerces to NaN). -/
def optGt (a b : Option JsNum) : Bool := JsNum.gt (a.getD JsNum.nan) (b.getD JsNum.nan)

/-! ## Validation -/

/-- The function `validateInput(input, config)`; `input = none` is a missing input. -/
def validateInput (input : Option Input) (config : Config) : Except String Unit :=
  match input with
  | none => Except.error "Input data missing!"
  | some inp =>
    match inp.siteKitty with
    | none => Except.error "siteKitty field missing!"
    | some kitty =>
      match inp.salesAgents with
      | AgentsField.array agents =>
        if agents.length = 0 then Except.error "No agents present!"
        else if kitty.lt (JsNum.num 0) then Except.error "Kitty must be positive!"
        else if optTruthy config.minPerAgent && optTruthy config.maxPerAgent
            && optGt config.minPerAgent config.maxPerAgent then
          Except.error "minPerAgent cannot exceed maxPerAgent."
        else Except.ok ()
      | _ => Except.error "salesAgents field missing or not an array!"

/-! ## Normalization -/

/-- The function `normalize(arr)`. -/
def normalize (arr : List JsNum) : List JsNum :=
  let min := mathMin arr
  let max := mathMax arr
  if JsNum.strictEq max min then arr.map (fun _ => JsNum.num 1)
  else arr.map (fun v => JsNum.div (JsNum.sub v min) (JsNum.sub max min))

/-! ## Justification -/

/-- The read `norm[f][idx]` of a normalized metric (NaN when the index is out of range). -/
def normAt (norm : List (String × List JsNum)) (f : String) (idx : Nat) : JsNum :=
  ((norm.lookup f).getD []).getD idx JsNum.nan

/-- The function `buildJustification(norm, idx, fields, agent)`; the literal `0.8` is the
rational 4/5. -/
def buildJustification (norm : List (String × List JsNum)) (idx : Nat) (fields : List String)
    (_agent : Agent) : String :=
  let high := fields.filter (fun f => JsNum.gt (normAt norm f idx) (JsNum.num (4 / 5)))
  if high.length ≠ 0 then "Exceptional: " ++ String.intercalate ", " high ++ "."
  else "Balanced contribution."

/-! ## Summary statistics -/

/-- One entry of the `allocations` array. -/
structure Allocation where
  id : String
  assignedDiscount : JsNum
  justification : String
deriving DecidableEq

/-- The `summary` object. -/
structure Summary where
  totalAllocated : JsNum
  remainingKitty : JsNum
  mean : JsNum
  median : JsNum
  min : JsNum
  max : JsNum
  agentsAtMin : Nat
  agentsAtMax : Nat
deriving DecidableEq

/-- The object returned by `allocate`. -/
structure Result where
  allocations : List Allocation
  summary : Summary
deriving DecidableEq

/-- Insertion of `x` into an ascending list under the comparator `(a, b) => a - b`:
`x` goes in front of the first element `y` with `x - y < 0`. -/
def insertAsc (x : JsNum) : List JsNum → List JsNum
  | [] => [x]
  | y :: ys => if JsNum.lt (JsNum.sub x y) (JsNum.num 0) then x :: y :: ys else y :: insertAsc x ys

/-- The call `[...amounts].sort((a, b) => a - b)`, as a stable insertion sort. -/
def sortAsc (amounts : List JsNum) : List JsNum :=
  amounts.foldl (fun acc x => insertAsc x acc) []

/-- The function `computeSummary(alloc, kitty)`. -/
def computeSummary (alloc : List Allocation) (kitty : JsNum) : Summary :=
  let amounts := alloc.map (fun a => a.assignedDiscount)
  let sum := sumNums amounts
  let sorted := sortAsc amounts
  let avg := JsNum.div sum (JsNum.num amounts.length)
  let agentsAtMin := (alloc.filter (fun a => JsNum.strictEq a.assignedDiscount (mathMin amounts))).length
  let agentsAtMax := (alloc.filter (fun a => JsNum.strictEq a.assignedDiscount (mathMax amounts))).length
  let median :=
    if amounts.length % 2 = 0 then
      JsNum.div (JsNum.add (sorted.getD (amounts.length / 2 - 1) JsNum.nan)
        (sorted.getD (amounts.length / 2) JsNum.nan)) (JsNum.num 2)
    else sorted.getD (amounts.length / 2) JsNum.nan
  { totalAllocated := sum
    remainingKitty := JsNum.sub kitty sum
    mean := avg
    median := median
    min := mathMin amounts
    max := mathMax amounts
    agentsAtMin := agentsAtMin
    agentsAtMax := agentsAtMax }

/-! ## Allocation -/

/-- An externally supplied scoring strategy `pluginScorer(agents, weights, normalized)`;
it returns its score array or throws. -/
abbrev Scorer :=
  List Agent → List (String × JsNum) → List (String × List JsNum) → Except String (List JsNum)

/-- The read `weights[k]`. -/
def weightAt (weights : List (String × JsNum)) (k : String) : JsNum :=
  (weights.lookup k).getD JsNum.nan

/-- The object `normalized` built by `attrKeys.forEach(k => normalized[k] = normalize(...))`. -/
def buildNormalized (agents : List Agent) (attrKeys : List String) : List (String × List JsNum) :=
  attrKeys.map (fun k => (k, normalize (agents.map (fun a => a.get k))))

/-- The native scorer:
`agents.map((_, i) => attrKeys.reduce((s, k) => s + weights[k] * normalized[k][i], 0))`. -/
def nativeScores (agents : List Agent) (weights : List (String × JsNum)) (attrKeys : List String)
    (normalized : List (String × List JsNum)) : List JsNum :=
  agents.enum.map (fun p =>
    attrKeys.foldl
      (fun s k => JsNum.add s (JsNum.mul (weightAt weights k) (normAt normalized k p.1)))
      (JsNum.num 0))

/-- The share before bounds:
`totalScore === 0 ? (kitty / agents.length) : (scores[i] / totalScore) * kitty`. -/
def rawShare (kitty totalScore : JsNum) (agentCount : Nat) (score : JsNum) : JsNum :=
  if JsNum.strictEq totalScore (JsNum.num 0) then JsNum.div kitty (JsNum.num agentCount)
  else JsNum.mul (JsNum.div score totalScore) kitty

/-- The bounded and rounded amount:
`Math.round(Math.max(minPerAgent, Math.min(maxPerAgent, alloc)))`. -/
def boundAndRound (minPerAgent maxPerAgent alloc : JsNum) : JsNum :=
  JsNum.round (JsNum.max2 minPerAgent (JsNum.min2 maxPerAgent alloc))

/-- The array built by `agents.map((a, i) => ...)` before reconciliation. -/
def proportional (agents : List Agent) (kitty minPerAgent maxPerAgent : JsNum)
    (scores : List JsNum) (normalized : List (String × List JsNum)) (attrKeys : List String) :
    List Allocation :=
  let totalScore := sumNums scores
  agents.enum.map (fun p =>
    { id := p.2.id
      assignedDiscount :=
        boundAndRound minPerAgent maxPerAgent
          (rawShare kitty totalScore agents.length (scores.getD p.1 JsNum.nan))
      justification := buildJustification normalized p.1 attrKeys p.2 })

/-- The statement `allocations[0].assignedDiscount += diff`. The empty case is not reached:
`validateInput` rejects an empty agent list. -/
def addToFirst (allocations : List Allocation) (diff : JsNum) : List Allocation :=
  match allocations with
  | [] => []
  | a :: rest => { a with assignedDiscount := JsNum.add a.assignedDiscount diff } :: rest

/-- The reconciliation step: `if (diff !== 0) allocations[0].assignedDiscount += diff`. -/
def reconcile (allocations : List Allocation) (kitty : JsNum) : List Allocation :=
  let sumAlloc := sumNums (allocations.map (fun a => a.assignedDiscount))
  let diff := JsNum.sub kitty sumAlloc
  if JsNum.strictEq diff (JsNum.num 0) then allocations else addToFirst allocations diff

/-- The function `allocate(input, config, pluginScorer)`; `pluginScorer = none` selects the
native scorer. The last branch is not reached: `validateInput` has thrown for those inputs. -/
def allocate (input : Option Input) (config : Config) (pluginScorer : Option Scorer) :
    Except String Result :=
  match validateInput input config with
  | Except.error e => Except.error e
  | Except.ok _ =>
    match input with
    | some { siteKitty := some kitty, salesAgents := AgentsField.array agents } =>
      let weights := config.weights.getD defaultWeights
      let minPerAgent := config.minPerAgent.getD defaultMinPerAgent
      let maxPerAgent := config.maxPerAgent.getD defaultMaxPerAgent
      let attrKeys := weights.map Prod.fst
      let normalized := buildNormalized agents attrKeys
      let scored : Except String (List JsNum) :=
        match pluginScorer with
        | some scorer => scorer agents weights normalized
        | none => Except.ok (nativeScores agents weights attrKeys normalized)
      match scored with
      | Except.error e => Except.error e
      | Except.ok scores =>
        let allocations :=
          reconcile (proportional agents kitty minPerAgent maxPerAgent scores normalized attrKeys)
            kitty
        Except.ok { allocations := allocations, summary := computeSummary allocations kitty }
    | _ => Except.error "Input data missing!"

/-! ## Reference notions over the rationals

These are the mathematical notions the properties below are stated with. -/

/-- Least element of a non-empty list of rationals (0 for the empty list). -/
def minQ : List ℚ → ℚ
  | [] => 0
  | x :: xs => xs.foldl min x

/-- Greatest element of a non-empty list of rationals (0 for the empty list). -/
def maxQ : List ℚ → ℚ
  | [] => 0
  | x :: xs => xs.foldl max x

/-- Min-max scaling over the rationals, with the constant-list rule: every value is 1
when the greatest and the least value coincide. -/
def specNormalize (xs : List ℚ) : List ℚ :=
  if maxQ xs = minQ xs then xs.map (fun _ => 1)
  else xs.map (fun v => (v - minQ xs) / (maxQ xs - minQ xs))

/-- The native score of agent `i`: the sum over the weighted attributes of
`weight[attr] * normalized[attr][i]`. -/
def specScore (agents : List Agent) (weights : List (String × JsNum)) (i : Nat) : ℚ :=
  ((weights.map Prod.fst).map (fun attr =>
    (weightAt weights attr).toQ
      * (specNormalize (agents.map (fun a => (a.get attr).toQ))).getD i 0)).sum

/-- The sum of the native scores of all agents. -/
def specTotalScore (agents : List Agent) (weights : List (String × JsNum)) : ℚ :=
  ((List.range agents.length).map (fun i => specScore agents weights i)).sum

/-- An upper bound as a JavaScript number: `none` (unbounded) is `Infinity`. -/
def upperBound : Option ℚ → JsNum
  | none => JsNum.pinf
  | some h => JsNum.num h

/-- Clamping of `x` to the interval from `lo` to `hi`, where `hi = none` means no upper
bound. -/
def clampQ (x lo : ℚ) (hi : Option ℚ) : ℚ :=
  if x < lo then lo
  else match hi with
    | some h => if h < x then h else x
    | none => x

/-- The raw share of an agent with score `s` among `n` agents: `k / n` when the total score
is 0, otherwise `k * s / total`. -/
def shareQ (k total : ℚ) (n : Nat) (s : ℚ) : ℚ :=
  if total = 0 then k / n else k * s / total

/-- The amount of agent `i` before reconciliation, over the rationals: the raw share,
clamped to the bounds and then rounded. -/
def specAmount (agents : List Agent) (weights : List (String × JsNum)) (k lo : ℚ)
    (hi : Option ℚ) (i : Nat) : ℤ :=
  JsNum.roundQ (clampQ (shareQ k (specTotalScore agents weights) agents.length
    (specScore agents weights i)) lo hi)

/-- The amounts of a list of allocation entries. -/
def amounts (allocations : List Allocation) : List JsNum :=
  allocations.map (fun a => a.assignedDiscount)

/-- A valid call of `allocate`: the kitty is a finite number `k ≥ 0`, the agent list is
non-empty, every weight is a finite number, every agent has a finite number for every
weighted attribute, and the effective bounds are a finite `lo` and an upper bound `hi`
(finite or unbounded) with `lo ≤ hi`. -/
structure ValidCall (input : Input) (config : Config) (k : ℚ) (agents : List Agent)
    (lo : ℚ) (hi : Option ℚ) : Prop where
  kitty_eq : input.siteKitty = some (JsNum.num k)
  kitty_nonneg : 0 ≤ k
  agents_eq : input.salesAgents = AgentsField.array agents
  agents_ne : agents ≠ []
  weights_finite : ∀ p ∈ config.weights.getD defaultWeights, p.2.isFinite = true
  attrs_finite : ∀ a ∈ agents, ∀ p ∈ config.weights.getD defaultWeights,
    (a.get p.1).isFinite = true
  min_eq : config.minPerAgent.getD defaultMinPerAgent = JsNum.num lo
  max_eq : config.maxPerAgent.getD defaultMaxPerAgent = upperBound hi
  min_le_max : ∀ h, hi = some h → lo ≤ h

/-! ## Example inputs -/

/-- An agent record with the single attribute `performanceScore`. -/
def scoredAgent (id : String) (performanceScore : ℚ) : Agent :=
  ⟨id, [("performanceScore", JsNum.num performanceScore)]⟩

/-- Two agents with performance scores 90 and 70. -/
def twoAgents : List Agent := [scoredAgent "A1" 90, scoredAgent "A2" 70]

/-- The weight configuration `{ performanceScore: 1 }`. -/
def performanceOnly : List (String × JsNum) := [("performanceScore", JsNum.num 1)]

/-- A scoring strategy that returns the single score 1 whatever the agents are. -/
def oneScore : Scorer := fun _ _ _ => Except.ok [JsNum.num 1]

/-- The amounts of the result of a call, when it returned one. -/
def resultAmounts (res : Except String Result) : Option (List JsNum) :=
  res.toOption.map (fun r => amounts r.allocations)

/-- The amounts after reconciliation, over the rationals: the entry at index 0 becomes the
kitty minus the sum of the other entries, which are kept. -/
def reconcileQ (k : ℚ) : List ℚ → List ℚ
  | [] => []
  | _ :: rest => (k - rest.sum) :: rest

/-- An agent record with the attributes `performanceScore` and `activeClients`. -/
def ratedAgent (id : String) (performanceScore activeClients : ℚ) : Agent :=
  ⟨id, [("performanceScore", JsNum.num performanceScore),
        ("activeClients", JsNum.num activeClients)]⟩

/-- The weight configuration `{ performanceScore: 8.5, activeClients: 1 }`. -/
def skewedWeights : List (String × JsNum) :=
  [("performanceScore", JsNum.num (17 / 2)), ("activeClients", JsNum.num 1)]

/-- Three agents with native scores 1, 9.5 and 9.5 under `skewedWeights`: the
lowest-scoring agent comes first. -/
def lowFirstAgents : List Agent :=
  [ratedAgent "A1" 70 10, ratedAgent "A2" 90 10, ratedAgent "A3" 90 10]

/-- The same three agents with the lowest-scoring agent in second position. -/
def lowSecondAgents : List Agent :=
  [ratedAgent "A1" 90 10, ratedAgent "A2" 70 10, ratedAgent "A3" 90 10]

@[simp] theorem JsNum.min2_num (a b : ℚ) :
    JsNum.min2 (JsNum.num a) (JsNum.num b) = JsNum.num (min a b) := by
  by_cases h : a ≤ b
  · have h1 : ¬ b < a := not_lt.mpr h
    simp [JsNum.min2, JsNum.lt, h1, h]
  · have h1 : b < a := not_le.mp h
    simp [JsNum.min2, JsNum.lt, h1, min_eq_right h1.le]

@[simp] theorem JsNum.max2_num (a b : ℚ) :
    JsNum.max2 (JsNum.num a) (JsNum.num b) = JsNum.num (max a b) := by
  by_cases h : a < b
  · simp [JsNum.max2, JsNum.lt, h, max_eq_right h.le]
  · simp [JsNum.max2, JsNum.lt, h, max_eq_left (not_lt.mp h)]

@[simp] theorem JsNum.sub_num (a b : ℚ) :
    JsNum.sub (JsNum.num a) (JsNum.num b) = JsNum.num (a - b) := by
  simp [JsNum.sub, JsNum.neg, JsNum.add, sub_eq_add_neg]

@[simp] theorem JsNum.add_num (a b : ℚ) :
    JsNum.add (JsNum.num a) (JsNum.num b) = JsNum.num (a + b) := rfl

@[simp] theorem JsNum.mul_num (a b : ℚ) :
    JsNum.mul (JsNum.num a) (JsNum.num b) = JsNum.num (a * b) := rfl

theorem JsNum.div_num (a b : ℚ) (hb : b ≠ 0) :
    JsNum.div (JsNum.num a) (JsNum.num b) = JsNum.num (a / b) := by
  simp [JsNum.div, hb]

@[simp] theorem JsNum.strictEq_num (a b : ℚ) :
    JsNum.strictEq (JsNum.num a) (JsNum.num b) = decide (a = b) := by
  simp [JsNum.strictEq]

theorem min2_pinf_num (x : ℚ) : JsNum.min2 JsNum.pinf (JsNum.num x) = JsNum.num x := by
  simp [JsNum.min2, JsNum.lt]

theorem max2_ninf_num (x : ℚ) : JsNum.max2 JsNum.ninf (JsNum.num x) = JsNum.num x := by
  simp [JsNum.max2, JsNum.lt]

theorem foldl_min2_num (xs : List ℚ) (a : ℚ) :
    (xs.map JsNum.num).foldl JsNum.min2 (JsNum.num a) = JsNum.num (xs.foldl min a) := by
  induction xs generalizing a with
  | nil => rfl
  | cons x xs ih => simp [ih]

theorem foldl_max2_num (xs : List ℚ) (a : ℚ) :
    (xs.map JsNum.num).foldl JsNum.max2 (JsNum.num a) = JsNum.num (xs.foldl max a) := by
  induction xs generalizing a with
  | nil => rfl
  | cons x xs ih => simp [ih]

theorem mathMin_map_num (x : ℚ) (xs : List ℚ) :
    mathMin ((x :: xs).map JsNum.num) = JsNum.num (minQ (x :: xs)) := by
  have h : JsNum.min2 JsNum.pinf (JsNum.num x) = JsNum.num x := by
    simp [JsNum.min2, JsNum.lt]
  simp [mathMin, minQ, h, foldl_min2_num]

theorem mathMax_map_num (x : ℚ) (xs : List ℚ) :
    mathMax ((x :: xs).map JsNum.num) = JsNum.num (maxQ (x :: xs)) := by
  have h : JsNum.max2 JsNum.ninf (JsNum.num x) = JsNum.num x := by
    simp [JsNum.max2, JsNum.lt]
  simp [mathMax, maxQ, h, foldl_max2_num]

theorem foldl_min_mem (xs : List ℚ) (a : ℚ) : xs.foldl min a ∈ a :: xs := by
  induction xs generalizing a with
  | nil => simp
  | cons y ys ih =>
    have h := ih (min a y)
    show ys.foldl min (min a y) ∈ a :: y :: ys
    rcases List.mem_cons.mp h with h | h
    · rw [h]
      rcases min_choice a y with h3 | h3
      · rw [h3]; simp
      · rw [h3]; simp
    · simp [h]

theorem foldl_max_mem (xs : List ℚ) (a : ℚ) : xs.foldl max a ∈ a :: xs := by
  induction xs generalizing a with
  | nil => simp
  | cons y ys ih =>
    have h := ih (max a y)
    show ys.foldl max (max a y) ∈ a :: y :: ys
    rcases List.mem_cons.mp h with h | h
    · rw [h]
      rcases max_choice a y with h3 | h3
      · rw [h3]; simp
      · rw [h3]; simp
    · simp [h]

theorem minQ_mem (xs : List ℚ) (h : xs ≠ []) : minQ xs ∈ xs := by
  cases xs with
  | nil => exact absurd rfl h
  | cons y ys => exact foldl_min_mem ys y

theorem maxQ_mem (xs : List ℚ) (h : xs ≠ []) : maxQ xs ∈ xs := by
  cases xs with
  | nil => exact absurd rfl h
  | cons y ys => exact foldl_max_mem ys y

/-- On finite values `normalize` is min-max scaling over the rationals, with the
constant-list rule. -/
theorem normalize_map_num (xs : List ℚ) :
    normalize (xs.map JsNum.num) =
      if maxQ xs = minQ xs then xs.map (fun _ => JsNum.num 1)
      else xs.map (fun v => JsNum.num ((v - minQ xs) / (maxQ xs - minQ xs))) := by
  cases xs with
  | nil => simp [normalize, mathMin, mathMax, JsNum.strictEq, minQ, maxQ]
  | cons y ys =>
    unfold normalize
    rw [mathMin_map_num, mathMax_map_num]
    by_cases h : maxQ (y :: ys) = minQ (y :: ys)
    · simp only [JsNum.strictEq_num, h, decide_True, if_true, List.map_map]
      rfl
    · have h2 : maxQ (y :: ys) - minQ (y :: ys) ≠ 0 := sub_ne_zero.mpr h
      simp only [JsNum.strictEq_num, h, decide_False, Bool.false_eq_true, if_false,
        List.map_map]
      apply List.map_congr_left
      intro v _
      simp [JsNum.div_num _ _ h2]

/-! ## Validation: properties -/

/-- C6. With no bounds in the config, `validateInput` throws exactly when the `siteKitty`
key is absent or its value is negative, or `salesAgents` is absent, not an array, or
empty (a missing input has neither key); a kitty of 0 with a non-empty agent list is
accepted. -/
theorem validateInput_unbounded_error_iff (input : Option Input)
    (weights : Option (List (String × JsNum))) :
    ((∃ e, validateInput input ⟨weights, none, none⟩ = Except.error e) ↔
      (input.bind Input.siteKitty = none
        ∨ (∃ q : ℚ, input.bind Input.siteKitty = some (JsNum.num q) ∧ q < 0)
        ∨ input.bind Input.siteKitty = some JsNum.ninf
        ∨ input.map Input.salesAgents = none
        ∨ input.map Input.salesAgents = some AgentsField.absent
        ∨ input.map Input.salesAgents = some AgentsField.notArray
        ∨ input.map Input.salesAgents = some (AgentsField.array [])))
    ∧ ∀ (a : Agent) (rest : List Agent),
        validateInput (some ⟨some (JsNum.num 0), AgentsField.array (a :: rest)⟩)
          ⟨weights, none, none⟩ = Except.ok () := by
  constructor
  · rcases input with _ | ⟨kitty, agents⟩
    · simp [validateInput]
    · rcases kitty with _ | kitty
      · simp [validateInput]
      · rcases agents with _ | _ | agents
        · simp [validateInput]
        · simp [validateInput]
        · rcases agents with _ | ⟨a, rest⟩
          · simp [validateInput]
          · rcases kitty with _ | _ | q | _
            · simp [validateInput, JsNum.lt, optTruthy]
            · simp [validateInput, JsNum.lt, optTruthy]
            · by_cases h : q < 0 <;> simp [validateInput, JsNum.lt, optTruthy, h]
            · simp [validateInput, JsNum.lt, optTruthy]
  · intro a rest
    simp [validateInput, JsNum.lt, optTruthy]

/-- C7 (as the code orders its checks). The error of `validateInput` names the first
violated condition in the order: input present, `siteKitty` key present, `salesAgents` an
array, `salesAgents` non-empty, `siteKitty` not below 0, bounds; in particular a negative
kitty together with an empty agent list yields the empty-agent-list error. -/
theorem validateInput_first_violation (input : Option Input) (config : Config) :
    (validateInput input config = Except.error "Input data missing!" ↔ input = none)
    ∧ (validateInput input config = Except.error "siteKitty field missing!" ↔
        ∃ inp, input = some inp ∧ inp.siteKitty = none)
    ∧ (validateInput input config = Except.error "salesAgents field missing or not an array!" ↔
        ∃ inp kitty, input = some inp ∧ inp.siteKitty = some kitty
          ∧ (inp.salesAgents = AgentsField.absent ∨ inp.salesAgents = AgentsField.notArray))
    ∧ (validateInput input config = Except.error "No agents present!" ↔
        ∃ kitty, input = some ⟨some kitty, AgentsField.array []⟩)
    ∧ (validateInput input config = Except.error "Kitty must be positive!" ↔
        ∃ kitty a rest, input = some ⟨some kitty, AgentsField.array (a :: rest)⟩
          ∧ kitty.lt (JsNum.num 0) = true)
    ∧ (validateInput input config = Except.error "minPerAgent cannot exceed maxPerAgent." ↔
        ∃ kitty a rest, input = some ⟨some kitty, AgentsField.array (a :: rest)⟩
          ∧ kitty.lt (JsNum.num 0) = false
          ∧ optTruthy config.minPerAgent = true ∧ optTruthy config.maxPerAgent = true
          ∧ optGt config.minPerAgent config.maxPerAgent = true)
    ∧ ∀ (q : ℚ), q < 0 →
        validateInput (some ⟨some (JsNum.num q), AgentsField.array []⟩) config
          = Except.error "No agents present!" := by
  rcases input with _ | ⟨kitty, agents⟩
  · simp [validateInput]
  · rcases kitty with _ | kitty
    · simp [validateInput]
    · rcases agents with _ | _ | agents
      · simp [validateInput]
      · simp [validateInput]
      · rcases agents with _ | ⟨a, rest⟩
        · simp [validateInput]
        · cases hk : kitty.lt (JsNum.num 0) <;> cases ha : optTruthy config.minPerAgent <;>
            cases hb : optTruthy config.maxPerAgent <;>
            cases hc : optGt config.minPerAgent config.maxPerAgent <;>
            simp [validateInput, hk, ha, hb, hc]

/-- C7, counterexample. With kitty -1 and an empty agent list the error raised is the
empty-agent-list error, not the kitty error. -/
theorem validateInput_order_counterexample :
    validateInput (some ⟨some (JsNum.num (-1)), AgentsField.array []⟩) ⟨none, none, none⟩
        = Except.error "No agents present!"
    ∧ validateInput (some ⟨some (JsNum.num (-1)), AgentsField.array []⟩) ⟨none, none, none⟩
        ≠ Except.error "Kitty must be positive!" := by
  simp [validateInput]

/-- C5, failing input. With `minPerAgent = 5` and `maxPerAgent = 0` both bounds are numbers
and `5 > 0`, yet `validateInput` accepts: the guard tests the bounds for truthiness and
`0` is falsy. -/
theorem validateInput_accepts_min_above_zero_max :
    validateInput (some ⟨some (JsNum.num 100), AgentsField.array [⟨"A1", []⟩]⟩)
        ⟨none, some (JsNum.num 5), some (JsNum.num 0)⟩ = Except.ok ()
    ∧ JsNum.gt (JsNum.num 5) (JsNum.num 0) = true := by
  simp [validateInput, JsNum.lt, JsNum.gt, optTruthy, JsNum.truthy]

/-! ## Normalization: properties -/

/-- C9. On a non-empty list whose values are all the same finite number, `normalize`
returns a list of the same length whose every element is exactly 1. -/
theorem normalize_constant (q : ℚ) (xs : List JsNum) (hne : xs ≠ [])
    (hall : ∀ x ∈ xs, x = JsNum.num q) :
    normalize xs = List.replicate xs.length (JsNum.num 1) := by
  have hxs : xs = (List.replicate xs.length q).map JsNum.num := by
    apply List.ext_getElem
    · simp
    · intro i h1 h2
      simp [hall _ (List.getElem_mem h1)]
  have hne2 : List.replicate xs.length q ≠ [] := by
    intro h
    apply hne
    rw [hxs, h]
    rfl
  have hmin : minQ (List.replicate xs.length q) = q :=
    List.eq_of_mem_replicate (minQ_mem _ hne2)
  have hmax : maxQ (List.replicate xs.length q) = q :=
    List.eq_of_mem_replicate (maxQ_mem _ hne2)
  rw [hxs, normalize_map_num, hmin, hmax]
  simp

/-- Witness for `normalize_constant`: two agents with the same value 7. -/
theorem normalize_constant_witness :
    normalize [JsNum.num 7, JsNum.num 7] = List.replicate 2 (JsNum.num 1) :=
  normalize_constant 7 [JsNum.num 7, JsNum.num 7] (by simp) (by simp)

theorem JsNum.eq_num_toQ {x : JsNum} (h : x.isFinite = true) : x = JsNum.num x.toQ := by
  cases x <;> simp [JsNum.isFinite, JsNum.toQ] at h ⊢

theorem map_eq_map_num_toQ (xs : List JsNum) (h : ∀ x ∈ xs, x.isFinite = true) :
    xs = (xs.map JsNum.toQ).map JsNum.num := by
  induction xs with
  | nil => rfl
  | cons x xs ih =>
    have hx := JsNum.eq_num_toQ (h x (by simp))
    have hxs := ih (fun y hy => h y (by simp [hy]))
    simp only [List.map_cons]
    rw [← hx, ← hxs]

theorem normalize_eq_specNormalize (xs : List ℚ) :
    normalize (xs.map JsNum.num) = (specNormalize xs).map JsNum.num := by
  rw [normalize_map_num]
  unfold specNormalize
  split <;> simp

theorem specNormalize_length (xs : List ℚ) : (specNormalize xs).length = xs.length := by
  unfold specNormalize
  split <;> simp

theorem getD_map_num (xs : List ℚ) (i : Nat) (h : i < xs.length) :
    (xs.map JsNum.num).getD i JsNum.nan = JsNum.num (xs.getD i 0) := by
  simp [List.getD, List.getElem?_eq_getElem h]

theorem foldl_add_num (xs : List ℚ) (a : ℚ) :
    (xs.map JsNum.num).foldl JsNum.add (JsNum.num a) = JsNum.num (a + xs.sum) := by
  induction xs generalizing a with
  | nil => simp
  | cons x xs ih => simp [ih, add_assoc]

theorem sumNums_map_num (xs : List ℚ) : sumNums (xs.map JsNum.num) = JsNum.num xs.sum := by
  simp [sumNums, foldl_add_num]

theorem lookup_map_key {β : Type} (f : String → β) (keys : List String) (k : String)
    (hk : k ∈ keys) : (keys.map (fun x => (x, f x))).lookup k = some (f k) := by
  induction keys with
  | nil => simp at hk
  | cons x xs ih =>
    by_cases hx : k = x
    · subst hx
      simp [List.lookup]
    · have hmem : k ∈ xs := by
        rcases List.mem_cons.mp hk with h | h
        · exact absurd h hx
        · exact h
      have hbeq : (k == x) = false := by simpa using hx
      simp [List.lookup, hbeq, ih hmem]

theorem lookup_mem_of_key (weights : List (String × JsNum)) (k : String)
    (hk : k ∈ weights.map Prod.fst) : ∃ w, weights.lookup k = some w ∧ (k, w) ∈ weights := by
  induction weights with
  | nil => simp at hk
  | cons p ps ih =>
    obtain ⟨x, w⟩ := p
    by_cases hx : k = x
    · subst hx
      exact ⟨w, by simp [List.lookup], by simp⟩
    · have hmem : k ∈ ps.map Prod.fst := by
        simp only [List.map_cons, List.mem_cons] at hk
        rcases hk with h | h
        · exact absurd h hx
        · exact h
      obtain ⟨w2, h1, h2⟩ := ih hmem
      have hbeq : (k == x) = false := by simpa using hx
      exact ⟨w2, by simp [List.lookup, hbeq, h1], by simp [h2]⟩

theorem weightAt_finite (weights : List (String × JsNum))
    (hw : ∀ p ∈ weights, p.2.isFinite = true) (k : String) (hk : k ∈ weights.map Prod.fst) :
    weightAt weights k = JsNum.num (weightAt weights k).toQ := by
  obtain ⟨w, h1, h2⟩ := lookup_mem_of_key weights k hk
  apply JsNum.eq_num_toQ
  simp only [weightAt, h1, Option.getD_some]
  exact hw _ h2

theorem normAt_buildNormalized (agents : List Agent) (keys : List String) (k : String)
    (hk : k ∈ keys) (hfin : ∀ a ∈ agents, (a.get k).isFinite = true) (i : Nat)
    (hi : i < agents.length) :
    normAt (buildNormalized agents keys) k i
      = JsNum.num ((specNormalize (agents.map (fun a => (a.get k).toQ))).getD i 0) := by
  have hcol : agents.map (fun a => a.get k)
      = (agents.map (fun a => (a.get k).toQ)).map JsNum.num := by
    have h := map_eq_map_num_toQ (agents.map (fun a => a.get k)) (by
      intro x hx
      obtain ⟨a, ha, rfl⟩ := List.mem_map.mp hx
      exact hfin a ha)
    simpa [List.map_map] using h
  unfold normAt buildNormalized
  rw [lookup_map_key (fun x => normalize (agents.map (fun a => a.get x))) keys k hk]
  simp only [Option.getD_some]
  rw [hcol, normalize_eq_specNormalize]
  exact getD_map_num _ _ (by simpa [specNormalize_length] using hi)

theorem foldl_add_terms (ks : List String) (f : String → JsNum) (g : String → ℚ)
    (h : ∀ k ∈ ks, f k = JsNum.num (g k)) (a : ℚ) :
    ks.foldl (fun s k => JsNum.add s (f k)) (JsNum.num a) = JsNum.num (a + (ks.map g).sum) := by
  induction ks generalizing a with
  | nil => simp
  | cons k ks ih =>
    simp only [List.foldl_cons, List.map_cons, List.sum_cons]
    rw [h k (by simp), JsNum.add_num, ih (fun x hx => h x (by simp [hx]))]
    rw [add_assoc]

theorem nativeScores_eq (agents : List Agent) (weights : List (String × JsNum))
    (hw : ∀ p ∈ weights, p.2.isFinite = true)
    (hfin : ∀ a ∈ agents, ∀ p ∈ weights, (a.get p.1).isFinite = true) :
    nativeScores agents weights (weights.map Prod.fst)
        (buildNormalized agents (weights.map Prod.fst))
      = ((List.range agents.length).map (fun i => specScore agents weights i)).map JsNum.num := by
  have hterm : ∀ p ∈ agents.enum,
      (weights.map Prod.fst).foldl
          (fun s k => JsNum.add s (JsNum.mul (weightAt weights k)
            (normAt (buildNormalized agents (weights.map Prod.fst)) k p.1)))
          (JsNum.num 0)
        = JsNum.num (specScore agents weights p.1) := by
    intro p hp
    have hi : p.1 < agents.length := List.fst_lt_of_mem_enum hp
    rw [foldl_add_terms (weights.map Prod.fst)
      (fun k => JsNum.mul (weightAt weights k)
        (normAt (buildNormalized agents (weights.map Prod.fst)) k p.1))
      (fun k => (weightAt weights k).toQ
        * (specNormalize (agents.map (fun a => (a.get k).toQ))).getD p.1 0)]
    · simp [specScore]
    · intro k hk
      obtain ⟨q, hq, rfl⟩ := List.mem_map.mp hk
      have h1 := weightAt_finite weights hw q.1 hk
      have h2 := normAt_buildNormalized agents (weights.map Prod.fst) q.1 hk
        (fun a ha => hfin a ha q hq) p.1 hi
      rw [h2, h1]
      simp [JsNum.toQ]
  unfold nativeScores
  rw [List.map_congr_left hterm]
  have hr : List.range agents.length = agents.enum.map Prod.fst := (List.enum_map_fst agents).symm
  rw [hr, List.map_map, List.map_map]
  rfl

theorem rawShare_num (k t s : ℚ) (n : Nat) (hn : n ≠ 0) :
    rawShare (JsNum.num k) (JsNum.num t) n (JsNum.num s) = JsNum.num (shareQ k t n s) := by
  have hn2 : (n : ℚ) ≠ 0 := Nat.cast_ne_zero.mpr hn
  unfold rawShare shareQ
  by_cases ht : t = 0
  · simp [ht, JsNum.div_num _ _ hn2]
  · simp only [JsNum.strictEq_num, ht, decide_False, Bool.false_eq_true, if_false,
      JsNum.div_num _ _ ht, JsNum.mul_num]
    congr 1
    field_simp
    ring

theorem boundAndRound_num (lo x : ℚ) (hi : Option ℚ) (hle : ∀ h, hi = some h → lo ≤ h) :
    boundAndRound (JsNum.num lo) (upperBound hi) (JsNum.num x)
      = JsNum.num (JsNum.roundQ (clampQ x lo hi)) := by
  cases hi with
  | none =>
    have h1 : JsNum.min2 JsNum.pinf (JsNum.num x) = JsNum.num x := by
      simp [JsNum.min2, JsNum.lt]
    simp only [boundAndRound, upperBound, h1, JsNum.max2_num, JsNum.round, clampQ]
    by_cases hx : x < lo
    · simp [hx, max_eq_left hx.le]
    · simp [hx, max_eq_right (not_lt.mp hx)]
  | some h =>
    have hlo := hle h rfl
    simp only [boundAndRound, upperBound, JsNum.min2_num, JsNum.max2_num, JsNum.round, clampQ]
    by_cases hx : x < lo
    · have : min h x = x := min_eq_right (hx.le.trans hlo)
      simp [hx, this, max_eq_left hx.le]
    · by_cases hx2 : h < x
      · simp [hx, hx2, min_eq_left hx2.le, max_eq_right hlo]
      · simp [hx, hx2, min_eq_right (not_lt.mp hx2), max_eq_right (not_lt.mp hx)]

/-- The list `proportional` builds when kitty, bounds and scores are finite. -/
theorem proportional_num (agents : List Agent) (k lo : ℚ) (hi : Option ℚ) (ss : List ℚ)
    (normalized : List (String × List JsNum)) (keys : List String)
    (hne : agents ≠ []) (hlen : ss.length = agents.length)
    (hle : ∀ h, hi = some h → lo ≤ h) :
    proportional agents (JsNum.num k) (JsNum.num lo) (upperBound hi) (ss.map JsNum.num)
        normalized keys
      = agents.enum.map (fun p =>
          { id := p.2.id
            assignedDiscount := JsNum.num (JsNum.roundQ
              (clampQ (shareQ k ss.sum agents.length (ss.getD p.1 0)) lo hi))
            justification := buildJustification normalized p.1 keys p.2 }) := by
  have hn : agents.length ≠ 0 := by
    intro h
    exact hne (List.length_eq_zero.mp h)
  unfold proportional
  apply List.map_congr_left
  intro p hp
  have hi2 : p.1 < ss.length := by
    rw [hlen]
    exact List.fst_lt_of_mem_enum hp
  simp only [sumNums_map_num, getD_map_num ss p.1 hi2, rawShare_num _ _ _ _ hn,
    boundAndRound_num _ _ _ hle]

theorem reconcile_length (allocations : List Allocation) (kitty : JsNum) :
    (reconcile allocations kitty).length = allocations.length := by
  unfold reconcile
  simp only []
  split
  · rfl
  · cases allocations <;> simp [addToFirst]

theorem reconcile_getElem?_succ (allocations : List Allocation) (kitty : JsNum) (i : Nat) :
    (reconcile allocations kitty)[i + 1]? = allocations[i + 1]? := by
  unfold reconcile
  simp only []
  split
  · rfl
  · cases allocations <;> simp [addToFirst]

theorem validateInput_of_valid {input : Input} {config : Config} {k : ℚ} {agents : List Agent}
    {lo : ℚ} {hi : Option ℚ} (hv : ValidCall input config k agents lo hi) :
    validateInput (some input) config = Except.ok () := by
  obtain ⟨hk, hk0, ha, hne, _, _, hmin, hmax, hle⟩ := hv
  obtain ⟨kitty, field⟩ := input
  simp only at hk ha
  subst hk ha
  cases agents with
  | nil => exact absurd rfl hne
  | cons a rest =>
    have hk1 : ¬ k < 0 := not_lt.mpr hk0
    obtain ⟨w, cmin, cmax⟩ := config
    simp only at hmin hmax
    cases cmin with
    | none => simp [validateInput, JsNum.lt, hk1, optTruthy]
    | some v =>
      cases cmax with
      | none => simp [validateInput, JsNum.lt, hk1, optTruthy]
      | some u =>
        simp only [Option.getD_some] at hmin hmax
        subst hmin hmax
        have hgt : optGt (some (JsNum.num lo)) (some (upperBound hi)) = false := by
          cases hi with
          | none => simp [optGt, JsNum.gt, JsNum.lt, upperBound]
          | some h => simpa [optGt, JsNum.gt, JsNum.lt, upperBound] using hle h rfl
        simp [validateInput, JsNum.lt, hk1, hgt]

theorem getD_map_range (f : Nat → ℚ) (n i : Nat) (h : i < n) :
    ((List.range n).map f).getD i 0 = f i := by
  simp [List.getD, List.getElem?_eq_getElem, h]

/-- What `allocate` returns on a valid call with the native scorer. -/
theorem allocate_native_of_valid {input : Input} {config : Config} {k : ℚ}
    {agents : List Agent} {lo : ℚ} {hi : Option ℚ}
    (hv : ValidCall input config k agents lo hi) :
    ∃ pre : List Allocation,
      allocate (some input) config none
        = Except.ok { allocations := reconcile pre (JsNum.num k)
                      summary := computeSummary (reconcile pre (JsNum.num k)) (JsNum.num k) }
      ∧ pre.length = agents.length
      ∧ ∀ i, i < agents.length → ∃ a, pre[i]? = some a ∧ a.assignedDiscount
          = JsNum.num (specAmount agents (config.weights.getD defaultWeights) k lo hi i) := by
  have hval := validateInput_of_valid hv
  obtain ⟨hk, hk0, ha, hne, hw, hfin, hmin, hmax, hle⟩ := hv
  obtain ⟨kitty, field⟩ := input
  simp only at hk ha
  subst hk ha
  have hscores := nativeScores_eq agents (config.weights.getD defaultWeights) hw hfin
  have hprop := proportional_num agents k lo hi
    ((List.range agents.length).map (fun i => specScore agents (config.weights.getD defaultWeights) i))
    (buildNormalized agents ((config.weights.getD defaultWeights).map Prod.fst))
    ((config.weights.getD defaultWeights).map Prod.fst) hne (by simp) hle
  refine ⟨proportional agents (JsNum.num k) (JsNum.num lo) (upperBound hi)
    (nativeScores agents (config.weights.getD defaultWeights)
      ((config.weights.getD defaultWeights).map Prod.fst)
      (buildNormalized agents ((config.weights.getD defaultWeights).map Prod.fst)))
    (buildNormalized agents ((config.weights.getD defaultWeights).map Prod.fst))
    ((config.weights.getD defaultWeights).map Prod.fst), ?_, ?_, ?_⟩
  · unfold allocate
    rw [hval]
    simp only [hmin, hmax]
  · rw [hscores, hprop]
    simp
  · intro i hi2
    have h1 : agents.enum[i]? = some (i, agents[i]) := by
      rw [List.getElem?_enum, List.getElem?_eq_getElem hi2]
      rfl
    rw [hscores, hprop]
    refine ⟨_, by rw [List.getElem?_map, h1]; rfl, ?_⟩
    simp only [specAmount, specTotalScore]
    rw [getD_map_range _ _ _ hi2]

theorem roundQ_intCast (m : ℤ) : JsNum.roundQ (m : ℚ) = m := by
  unfold JsNum.roundQ
  rw [Int.floor_eq_iff]
  constructor <;> linarith

theorem amounts_getElem? (allocations : List Allocation) (i : Nat) :
    (amounts allocations)[i]? = allocations[i]?.map (fun a => a.assignedDiscount) := by
  simp [amounts]

theorem sumNums_nativeScores {input : Input} {config : Config} {k : ℚ}
    {agents : List Agent} {lo : ℚ} {hi : Option ℚ}
    (hv : ValidCall input config k agents lo hi) :
    sumNums (nativeScores agents (config.weights.getD defaultWeights)
        ((config.weights.getD defaultWeights).map Prod.fst)
        (buildNormalized agents ((config.weights.getD defaultWeights).map Prod.fst)))
      = JsNum.num (specTotalScore agents (config.weights.getD defaultWeights)) := by
  rw [nativeScores_eq agents _ hv.weights_finite hv.attrs_finite, sumNums_map_num]
  rfl

/-- C8, counterexample. Kitty 100, two agents, a strategy returning the one-element score
list `[1]`: `allocate` raises no error; it returns a result whose two amounts are NaN. -/
theorem allocate_short_scores_counterexample :
    resultAmounts (allocate (some ⟨some (JsNum.num 100), AgentsField.array twoAgents⟩)
        ⟨some performanceOnly, none, none⟩ (some oneScore))
      = some [JsNum.nan, JsNum.nan] := by
  decide!

theorem boundAndRound_nan (lo hi : JsNum) : boundAndRound lo hi JsNum.nan = JsNum.nan := by
  cases lo <;> cases hi <;> simp [boundAndRound, JsNum.min2, JsNum.max2, JsNum.round]

theorem rawShare_nan (kitty total : JsNum) (n : Nat)
    (ht : JsNum.strictEq total (JsNum.num 0) = false) :
    rawShare kitty total n JsNum.nan = JsNum.nan := by
  unfold rawShare
  rw [ht]
  cases kitty <;> cases total <;> simp [JsNum.div, JsNum.mul]

/-- What `allocate` returns once validation has passed and the external strategy has
returned its scores. -/
theorem allocate_scorer_eq (config : Config) (kitty : JsNum) (agents : List Agent)
    (scorer : Scorer) (scores : List JsNum)
    (hval : validateInput (some ⟨some kitty, AgentsField.array agents⟩) config = Except.ok ())
    (hsc : scorer agents (config.weights.getD defaultWeights)
        (buildNormalized agents ((config.weights.getD defaultWeights).map Prod.fst))
      = Except.ok scores) :
    allocate (some ⟨some kitty, AgentsField.array agents⟩) config (some scorer)
      = Except.ok
          { allocations := reconcile (proportional agents kitty
              (config.minPerAgent.getD defaultMinPerAgent)
              (config.maxPerAgent.getD defaultMaxPerAgent) scores
              (buildNormalized agents ((config.weights.getD defaultWeights).map Prod.fst))
              ((config.weights.getD defaultWeights).map Prod.fst)) kitty
            summary := computeSummary (reconcile (proportional agents kitty
              (config.minPerAgent.getD defaultMinPerAgent)
              (config.maxPerAgent.getD defaultMaxPerAgent) scores
              (buildNormalized agents ((config.weights.getD defaultWeights).map Prod.fst))
              ((config.weights.getD defaultWeights).map Prod.fst)) kitty) kitty } := by
  unfold allocate
  rw [hval]
  simp only [hsc]

/-- C8 (as the code does not check the strategy's output). When validation passes and the
external strategy returns a score list one element shorter than the agent list,
`allocate` raises no error: it returns a result with one entry per agent; the missing
score reads as `undefined`, so when the total of the returned scores is not 0 and there
are at least two agents the last entry's amount is NaN. -/
theorem allocate_short_scores_returns (config : Config) (kitty : JsNum)
    (agents : List Agent) (scorer : Scorer) (scores : List JsNum)
    (hval : validateInput (some ⟨some kitty, AgentsField.array agents⟩) config = Except.ok ())
    (hsc : scorer agents (config.weights.getD defaultWeights)
        (buildNormalized agents ((config.weights.getD defaultWeights).map Prod.fst))
      = Except.ok scores)
    (hlen : scores.length + 1 = agents.length) :
    ∃ r, allocate (some ⟨some kitty, AgentsField.array agents⟩) config (some scorer)
        = Except.ok r
      ∧ r.allocations.length = agents.length
      ∧ (JsNum.strictEq (sumNums scores) (JsNum.num 0) = false → 2 ≤ agents.length →
          (amounts r.allocations)[agents.length - 1]? = some JsNum.nan) := by
  refine ⟨_, allocate_scorer_eq config kitty agents scorer scores hval hsc, ?_, ?_⟩
  · simp [reconcile_length, proportional]
  · intro ht h2
    obtain ⟨j, hj⟩ : ∃ j, agents.length - 1 = j + 1 := ⟨agents.length - 2, by omega⟩
    have hjlt : j + 1 < agents.length := by omega
    have hget : scores.getD (j + 1) JsNum.nan = JsNum.nan := by
      have : scores.length ≤ j + 1 := by omega
      simp [List.getD, List.getElem?_eq_none this]
    have h1 : agents.enum[j + 1]? = some (j + 1, agents[j + 1]) := by
      rw [List.getElem?_enum, List.getElem?_eq_getElem hjlt]
      rfl
    rw [hj, amounts_getElem?, reconcile_getElem?_succ]
    simp only [proportional, List.getElem?_map, h1, Option.map_some', hget,
      rawShare_nan _ _ _ ht, boundAndRound_nan]

/-- Witness for `allocate_short_scores_returns`: kitty 100, two agents, a strategy
returning `[1]`. -/
theorem allocate_short_scores_returns_witness :
    ∃ r, allocate (some ⟨some (JsNum.num 100), AgentsField.array twoAgents⟩)
          ⟨some performanceOnly, none, none⟩ (some oneScore) = Except.ok r
      ∧ r.allocations.length = twoAgents.length
      ∧ (JsNum.strictEq (sumNums [JsNum.num 1]) (JsNum.num 0) = false → 2 ≤ twoAgents.length →
          (amounts r.allocations)[twoAgents.length - 1]? = some JsNum.nan) :=
  allocate_short_scores_returns ⟨some performanceOnly, none, none⟩ (JsNum.num 100) twoAgents
    oneScore [JsNum.num 1] (by simp [validateInput, twoAgents, JsNum.lt, optTruthy]) rfl rfl


/-! ## Normalization: range -/

theorem amounts_reconcile_num (allocations : List Allocation) (k : ℚ) (qs : List ℚ)
    (hqs : amounts allocations = qs.map JsNum.num) :
    amounts (reconcile allocations (JsNum.num k)) = (reconcileQ k qs).map JsNum.num := by
  have hsum : sumNums (amounts allocations) = JsNum.num qs.sum := by
    rw [hqs, sumNums_map_num]
  show amounts (if JsNum.strictEq (JsNum.sub (JsNum.num k)
      (sumNums (amounts allocations))) (JsNum.num 0) = true then allocations
    else addToFirst allocations (JsNum.sub (JsNum.num k) (sumNums (amounts allocations))))
    = (reconcileQ k qs).map JsNum.num
  rw [hsum, JsNum.sub_num, JsNum.strictEq_num]
  cases allocations with
  | nil =>
    cases qs with
    | nil => simp [addToFirst, amounts, reconcileQ]
    | cons q0 rs => simp [amounts] at hqs
  | cons a rest =>
    cases qs with
    | nil => simp [amounts] at hqs
    | cons q0 rs =>
      simp only [amounts, List.map_cons, List.cons.injEq] at hqs
      obtain ⟨h0, hr⟩ := hqs
      by_cases hd : k - (q0 :: rs).sum = 0
      · rw [if_pos (by simpa using hd)]
        simp only [amounts, List.map_cons, reconcileQ, h0, hr]
        congr 2
        simp only [List.sum_cons] at hd
        linarith
      · rw [if_neg (by simpa using hd)]
        simp only [addToFirst, amounts, List.map_cons, reconcileQ, h0, hr, JsNum.add_num]
        congr 2
        simp only [List.sum_cons]
        ring

/-- The amounts `allocate` returns on a valid native call, over the rationals. -/
theorem allocate_native_amounts {input : Input} {config : Config} {k : ℚ}
    {agents : List Agent} {lo : ℚ} {hi : Option ℚ}
    (hv : ValidCall input config k agents lo hi) :
    ∃ r, allocate (some input) config none = Except.ok r
      ∧ amounts r.allocations
          = (reconcileQ k ((List.range agents.length).map (fun i =>
              ((specAmount agents (config.weights.getD defaultWeights) k lo hi i : ℤ) : ℚ)))).map
              JsNum.num
      ∧ r.summary = computeSummary r.allocations (JsNum.num k) := by
  obtain ⟨pre, hr, hlen, hpre⟩ := allocate_native_of_valid hv
  refine ⟨_, hr, ?_, rfl⟩
  apply amounts_reconcile_num
  apply List.ext_getElem?
  intro i
  by_cases hi2 : i < agents.length
  · obtain ⟨a, ha1, ha2⟩ := hpre i hi2
    rw [amounts_getElem?, ha1]
    simp [List.getElem?_eq_getElem, hi2, ha2]
  · have h1 : pre.length ≤ i := by omega
    have h2 : ((List.range agents.length).map (fun i =>
        ((specAmount agents (config.weights.getD defaultWeights) k lo hi i : ℤ) : ℚ))).length ≤ i := by
      simp
      omega
    rw [amounts_getElem?, List.getElem?_eq_none h1, List.getElem?_map, List.getElem?_eq_none h2]
    rfl

/-- C13. There is a valid call (kitty 100, two agents, `minPerAgent = 20`,
`maxPerAgent = 60`) in which the rounded clamped shares are 60 and 20, the whole difference
`100 - 80 = 20` is added to entry 0, and entry 0 ends at 80, above `maxPerAgent`; and on
every call reconciliation leaves every entry at index above 0 as it was. -/
theorem reconcile_pushes_first_outside :
    ValidCall ⟨some (JsNum.num 100), AgentsField.array twoAgents⟩
        ⟨some performanceOnly, some (JsNum.num 20), some (JsNum.num 60)⟩ 100 twoAgents 20 (some 60)
    ∧ amounts (proportional twoAgents (JsNum.num 100) (JsNum.num 20) (JsNum.num 60)
        (nativeScores twoAgents performanceOnly (performanceOnly.map Prod.fst)
          (buildNormalized twoAgents (performanceOnly.map Prod.fst)))
        (buildNormalized twoAgents (performanceOnly.map Prod.fst))
        (performanceOnly.map Prod.fst))
      = [JsNum.num 60, JsNum.num 20]
    ∧ resultAmounts (allocate (some ⟨some (JsNum.num 100), AgentsField.array twoAgents⟩)
        ⟨some performanceOnly, some (JsNum.num 20), some (JsNum.num 60)⟩ none)
      = some [JsNum.num 80, JsNum.num 20]
    ∧ JsNum.gt (JsNum.num 80) (JsNum.num 60) = true
    ∧ ∀ (allocations : List Allocation) (kitty : JsNum) (i : Nat),
        (reconcile allocations kitty)[i + 1]? = allocations[i + 1]? := by
  refine ⟨⟨rfl, by norm_num, rfl, by simp [twoAgents],
      by simp [performanceOnly, JsNum.isFinite],
      by simp [performanceOnly, twoAgents, scoredAgent, Agent.get, List.lookup, JsNum.isFinite],
      rfl, rfl, by intro h hh; cases hh; norm_num⟩, by decide!, by decide!, by decide!, ?_⟩
  intro allocations kitty i
  exact reconcile_getElem?_succ allocations kitty i

theorem reconcileQ_sum (k : ℚ) (qs : List ℚ) (hne : qs ≠ []) : (reconcileQ k qs).sum = k := by
  cases qs with
  | nil => exact absurd rfl hne
  | cons q rest => simp [reconcileQ]

theorem reconcileQ_getElem?_succ (k : ℚ) (qs : List ℚ) (i : Nat) :
    (reconcileQ k qs)[i + 1]? = qs[i + 1]? := by
  cases qs with
  | nil => rfl
  | cons q rest => simp [reconcileQ]

theorem reconcileQ_length (k : ℚ) (qs : List ℚ) : (reconcileQ k qs).length = qs.length := by
  cases qs <;> simp [reconcileQ]

/-- The amounts of a valid native call: their sum, and the entries past index 0. -/
theorem allocate_native_sum_tail {input : Input} {config : Config} {k : ℚ}
    {agents : List Agent} {lo : ℚ} {hi : Option ℚ}
    (hv : ValidCall input config k agents lo hi) :
    ∃ r, allocate (some input) config none = Except.ok r
      ∧ r.allocations.length = agents.length
      ∧ sumNums (amounts r.allocations) = JsNum.num k
      ∧ ∀ i, 0 < i → i < agents.length → (amounts r.allocations)[i]?
          = some (JsNum.num (specAmount agents (config.weights.getD defaultWeights) k lo hi i)) := by
  obtain ⟨r, hr, hamt, _⟩ := allocate_native_amounts hv
  have hn : agents.length ≠ 0 := fun h => hv.agents_ne (List.length_eq_zero.mp h)
  have hne : (List.range agents.length).map (fun i =>
      ((specAmount agents (config.weights.getD defaultWeights) k lo hi i : ℤ) : ℚ)) ≠ [] := by
    intro h
    have hl := congrArg List.length h
    simp only [List.length_map, List.length_range, List.length_nil] at hl
    exact hn hl
  refine ⟨r, hr, ?_, ?_, ?_⟩
  · have hl := congrArg List.length hamt
    simpa [amounts, reconcileQ_length] using hl
  · rw [hamt, sumNums_map_num, reconcileQ_sum k _ hne]
  · intro i hi0 hin
    obtain ⟨j, rfl⟩ : ∃ j, i = j + 1 := ⟨i - 1, by omega⟩
    rw [hamt, List.getElem?_map, reconcileQ_getElem?_succ, List.getElem?_map,
      List.getElem?_range hin]
    rfl

/-- The raw share the code computes for agent `i` on a valid native call. -/
theorem rawShare_native {input : Input} {config : Config} {k : ℚ}
    {agents : List Agent} {lo : ℚ} {hi : Option ℚ}
    (hv : ValidCall input config k agents lo hi) (i : Nat) (hi2 : i < agents.length) :
    rawShare (JsNum.num k)
        (sumNums (nativeScores agents (config.weights.getD defaultWeights)
          ((config.weights.getD defaultWeights).map Prod.fst)
          (buildNormalized agents ((config.weights.getD defaultWeights).map Prod.fst))))
        agents.length
        ((nativeScores agents (config.weights.getD defaultWeights)
          ((config.weights.getD defaultWeights).map Prod.fst)
          (buildNormalized agents ((config.weights.getD defaultWeights).map Prod.fst))).getD i
          JsNum.nan)
      = JsNum.num (shareQ k (specTotalScore agents (config.weights.getD defaultWeights))
          agents.length (specScore agents (config.weights.getD defaultWeights) i)) := by
  have hn : agents.length ≠ 0 := fun h => hv.agents_ne (List.length_eq_zero.mp h)
  rw [sumNums_nativeScores hv, nativeScores_eq agents _ hv.weights_finite hv.attrs_finite,
    getD_map_num _ _ (by simpa using hi2), getD_map_range _ _ _ hi2, rawShare_num _ _ _ _ hn]

/-- C14, counterexample. Kitty 100, bounds 20 and 80, three agents with scores 1, 9.5 and
9.5, the lowest-scoring agent first: its raw share is 5, and its final amount is 4, not
20. -/
theorem allocate_low_share_first_counterexample :
    nativeScores lowFirstAgents skewedWeights (skewedWeights.map Prod.fst)
        (buildNormalized lowFirstAgents (skewedWeights.map Prod.fst))
      = [JsNum.num 1, JsNum.num (19 / 2), JsNum.num (19 / 2)]
    ∧ rawShare (JsNum.num 100) (JsNum.num 20) 3 (JsNum.num 1) = JsNum.num 5
    ∧ resultAmounts (allocate (some ⟨some (JsNum.num 100), AgentsField.array lowFirstAgents⟩)
        ⟨some skewedWeights, some (JsNum.num 20), some (JsNum.num 80)⟩ none)
      = some [JsNum.num 4, JsNum.num 48, JsNum.num 48] := by
  decide!

/-- C14 (as reconciliation changes entry 0). For kitty 100, `minPerAgent = 20`,
`maxPerAgent = 80` and every valid three-agent input, an agent at an index above 0 whose
raw share is 5 gets the final amount 20, and the three amounts total 100. -/
theorem allocate_low_share_clamps (input : Input) (config : Config) (agents : List Agent)
    (i : Nat) (hv : ValidCall input config 100 agents 20 (some 80))
    (hthree : agents.length = 3) (hi0 : 0 < i) (hi3 : i < 3)
    (hshare : rawShare (JsNum.num 100)
        (sumNums (nativeScores agents (config.weights.getD defaultWeights)
          ((config.weights.getD defaultWeights).map Prod.fst)
          (buildNormalized agents ((config.weights.getD defaultWeights).map Prod.fst))))
        agents.length
        ((nativeScores agents (config.weights.getD defaultWeights)
          ((config.weights.getD defaultWeights).map Prod.fst)
          (buildNormalized agents ((config.weights.getD defaultWeights).map Prod.fst))).getD i
          JsNum.nan)
      = JsNum.num 5) :
    ∃ r, allocate (some input) config none = Except.ok r
      ∧ r.allocations.length = 3
      ∧ (amounts r.allocations)[i]? = some (JsNum.num 20)
      ∧ sumNums (amounts r.allocations) = JsNum.num 100 := by
  obtain ⟨r, hr, hlen, hsum, htail⟩ := allocate_native_sum_tail hv
  have hin : i < agents.length := by omega
  refine ⟨r, hr, by omega, ?_, hsum⟩
  rw [htail i hi0 hin]
  rw [rawShare_native hv i hin] at hshare
  have hs := JsNum.num.inj hshare
  simp only [specAmount, hs]
  have hc : clampQ 5 20 (some 80) = ((20 : ℤ) : ℚ) := by
    norm_num [clampQ]
  rw [hc, roundQ_intCast]
  norm_num

/-- Witness for `allocate_low_share_clamps`: three agents with scores 9.5, 1 and 9.5, the
lowest-scoring agent at index 1. -/
theorem allocate_low_share_clamps_witness :
    ∃ r, allocate (some ⟨some (JsNum.num 100), AgentsField.array lowSecondAgents⟩)
          ⟨some skewedWeights, some (JsNum.num 20), some (JsNum.num 80)⟩ none = Except.ok r
      ∧ r.allocations.length = 3
      ∧ (amounts r.allocations)[1]? = some (JsNum.num 20)
      ∧ sumNums (amounts r.allocations) = JsNum.num 100 :=
  allocate_low_share_clamps ⟨some (JsNum.num 100), AgentsField.array lowSecondAgents⟩
    ⟨some skewedWeights, some (JsNum.num 20), some (JsNum.num 80)⟩ lowSecondAgents 1
    ⟨rfl, by norm_num, rfl, by simp [lowSecondAgents],
      by simp [skewedWeights, JsNum.isFinite],
      by simp [skewedWeights, lowSecondAgents, ratedAgent, Agent.get, List.lookup,
        JsNum.isFinite],
      rfl, rfl, by intro h hh; cases hh; norm_num⟩
    rfl (by norm_num) (by norm_num)
    (by norm_num [sumNums, nativeScores, buildNormalized, normalize, mathMin, mathMax,
      lowSecondAgents, ratedAgent, skewedWeights, Agent.get, weightAt, normAt, List.lookup,
      List.enum, List.enumFrom, min2_pinf_num, max2_ninf_num, JsNum.div, min_def, max_def,
      rawShare, (by decide : ("activeClients" == "performanceScore") = false)])


/-! ## Identical agents -/

end AllocationEngine
